import Mathlib

/-!
Verification of the xtdlib/log fan-out logging pipeline.

Shallow embedding of the repository's Go sources:
* `log.go` — `consoleHandler`, `multiHandler`, level constants;
* `init.go` / the Victoria-Logs variant of `init` — default handler assembly,
  the file sink's `replaceAttr`;
* `victorialogs.go` (the `VictoriaLogsHandler` source) — `NewVictoriaLogsHandler`,
  `Enabled`, `Handle`, `WithAttrs`, `WithGroup`, `getLevelName`, `addAttrToMap`.

Machine integers of the Go code (`slog.Level` is an int64 far from overflow in
every use here) are modelled as `Int`.  Go maps are modelled by association
lists whose insert overwrites the previous binding of the key, which is the
observable semantics of `m[key] = v` plus lookup.  External stdlib formatters
(`time.Format`, `os.Hostname`) are modelled as explicit inputs.
-/

namespace XtdLog

/-- Level constants from `log.go`: `LevelTrace = slog.Level(-8)` … `LevelEmergency = slog.Level(12)`. -/
def LevelTrace : Int := -8

/-- `LevelDebug = slog.LevelDebug = -4`. -/
def LevelDebug : Int := -4

/-- `LevelInfo = slog.LevelInfo = 0`. -/
def LevelInfo : Int := 0

/-- `LevelWarn = slog.LevelWarn = 4`. -/
def LevelWarn : Int := 4

/-- `LevelError = slog.LevelError = 8`. -/
def LevelError : Int := 8

/-- `LevelEmergency = slog.Level(12)`. -/
def LevelEmergency : Int := 12

mutual

/-- `slog.Value`, restricted to the kinds this repository's sinks inspect:
strings, int64s, bools, levels (a `slog.Level` stored as an attribute value,
as the file sink's `ReplaceAttr` receives it), the zero "any nil" value, and
groups. -/
inductive Value where
  | str : String → Value
  | int : Int → Value
  | bool : Bool → Value
  | level : Int → Value
  | nil : Value
  | group : List Attr → Value

/-- `slog.Attr`: a key and a value. -/
inductive Attr where
  | mk : String → Value → Attr

end

/-- The key of an attribute. -/
def Attr.key : Attr → String
  | .mk k _ => k

/-- The value of an attribute. -/
def Attr.value : Attr → Value
  | .mk _ v => v

/-- `a.Equal(slog.Attr{})`: true exactly for the zero attribute
(empty key, zero `any` value). -/
def Attr.isZero : Attr → Bool
  | .mk k .nil => k = ""
  | _ => false

/-- A resolved call-site frame (`runtime.CallersFrames` output for `r.PC`).
Frame resolution itself is a Go-runtime side table; the record carries the
resolved frame when `r.PC != 0`. -/
structure Frame where
  file : String
  line : Int
  function : String

/-- A Go `time.Time`, modelled by the two formatted projections the sinks use:
`Format(time.RFC3339Nano)` and `Format("15:04:05.000")`. -/
structure GoTime where
  rfc3339nano : String
  clock : String

/-- `slog.Record`: timestamp, level, message, optional resolved call site
(`pc = none` models `r.PC == 0`), ordered attributes. -/
structure Record where
  time : GoTime
  level : Int
  message : String
  pc : Option Frame
  attrs : List Attr

/-- A JSON-encodable value of a `map[string]interface{}` entry as the sinks
build it. -/
inductive EValue where
  | str : String → EValue
  | int : Int → EValue
  | bool : Bool → EValue
  | nil : EValue
  | map : List (String × EValue) → EValue

/-- A Go `map[string]interface{}`, modelled as an association list on which
assignment overwrites the previous binding of the key. -/
abbrev EMap := List (String × EValue)

/-- Go map assignment `m[k] = v`: the previous binding of `k` (if any) is
replaced, other bindings are untouched; a new key is appended.  (Go maps are
unordered — the position of a binding in this list is a modelling artifact;
only lookup is observable.) -/
def mapInsert : EMap → String → EValue → EMap
  | [], k, v => [(k, v)]
  | (k', v') :: rest, k, v =>
      if k' = k then (k, v) :: rest else (k', v') :: mapInsert rest k v

/-- Go map lookup `m[k]`. -/
def mapGet (m : EMap) (k : String) : Option EValue :=
  match m with
  | [] => none
  | (k', v) :: rest => if k' = k then some v else mapGet rest k

/-- Decimal digits of a natural number, accumulator form. -/
def natDecAux (n : Nat) (acc : List Char) : List Char :=
  if h : n < 10 then Char.ofNat (48 + n) :: acc
  else natDecAux (n / 10) (Char.ofNat (48 + n % 10) :: acc)
  termination_by n
  decreasing_by
    simp only [not_lt] at h
    exact Nat.div_lt_self (Nat.lt_of_lt_of_le (by norm_num) h) (by norm_num)

/-- Decimal rendering of a natural number. -/
def natDec (n : Nat) : String :=
  ⟨natDecAux n []⟩

/-- Decimal rendering of an integer, as Go's `%d` / JSON int encoding. -/
def intDec (i : Int) : String :=
  if i < 0 then "-" ++ natDec i.natAbs else natDec i.natAbs

/-- `fmt.Sprintf("%+d", v)`: decimal with an explicit sign. -/
def fmtPlus (v : Int) : String :=
  if 0 ≤ v then "+" ++ intDec v else intDec v

/-- Helper `str` inside `slog.Level.String`: base name, with a signed offset
when nonzero. -/
def levelStrBase (base : String) (val : Int) : String :=
  if val = 0 then base else base ++ fmtPlus val

/-- `slog.Level.String()` (Go stdlib, referenced by the repository's default
branches). -/
def levelString (l : Int) : String :=
  if l < LevelInfo then levelStrBase "DEBUG" (l - LevelDebug)
  else if l < LevelWarn then levelStrBase "INFO" (l - LevelInfo)
  else if l < LevelError then levelStrBase "WARN" (l - LevelWarn)
  else levelStrBase "ERROR" (l - LevelError)

/-- `getLevelName` of the Victoria-Logs source: the `levelNames` map lookup,
falling back to `level.String()`. -/
def getLevelName (level : Int) : String :=
  if level = LevelTrace then "TRACE"
  else if level = LevelDebug then "DEBUG"
  else if level = LevelInfo then "INFO"
  else if level = LevelWarn then "WARN"
  else if level = LevelError then "ERROR"
  else if level = LevelEmergency then "EMERGENCY"
  else levelString level

/-- Lower-case hex digit, as `encoding/json` uses in `\u00XX` escapes. -/
def hexDigit (n : Nat) : Char :=
  "0123456789abcdef".data.getD n '0'

/-- Two lower-case hex digits of a byte value. -/
def hex2 (n : Nat) : String :=
  ⟨[hexDigit (n / 16 % 16), hexDigit (n % 16)]⟩

/-- `encoding/json` string escaping of one character (default encoder, HTML
escaping on): quote, backslash, `\n`, `\r`, `\t`, other control characters as
`\u00XX`, `<`, `>`, `&` as `\u00XX`, and U+2028/U+2029 as ` `/` `. -/
def escChar (c : Char) : String :=
  if c = '"' then "\\\""
  else if c = '\\' then "\\\\"
  else if c = '\n' then "\\n"
  else if c = '\r' then "\\r"
  else if c = '\t' then "\\t"
  else if c.toNat < 32 then "\\u00" ++ hex2 c.toNat
  else if c = '<' ∨ c = '>' ∨ c = '&' then "\\u00" ++ hex2 c.toNat
  else if c.toNat = 0x2028 then "\\u2028"
  else if c.toNat = 0x2029 then "\\u2029"
  else ⟨[c]⟩

/-- JSON escaping of a character list. -/
def escList : List Char → String
  | [] => ""
  | c :: cs => escChar c ++ escList cs

/-- JSON escaping of a string body (without the surrounding quotes). -/
def escapeString (s : String) : String :=
  escList s.data

mutual

/-- `encoding/json` encoding of a map value (the serializer is an external
stdlib collaborator; entries are emitted in the association-list order of the
model). -/
def encodeEValue : EValue → String
  | .str s => "\"" ++ escapeString s ++ "\""
  | .int i => intDec i
  | .bool b => if b then "true" else "false"
  | .nil => "null"
  | .map m => "\x7b" ++ encodeEntries m ++ "\x7d"

/-- Comma-separated `"key":value` entries of a JSON object. -/
def encodeEntries : List (String × EValue) → String
  | [] => ""
  | [(k, v)] => "\"" ++ escapeString k ++ "\":" ++ encodeEValue v
  | (k, v) :: p :: rest =>
      "\"" ++ escapeString k ++ "\":" ++ encodeEValue v ++ "," ++ encodeEntries (p :: rest)

end

/-- The key computation shared by `addAttrToMap` and `appendAttr`:
`key := a.Key; if group != "" { key = group + "." + key }`. -/
def visKey (group key : String) : String :=
  if group ≠ "" then group ++ "." ++ key else key

/-- `a.Value.Any()` as a JSON-encodable value, for the non-group kinds.  A
`slog.Level` value marshals through its `String()` form. -/
def valueToE : Value → EValue
  | .str s => .str s
  | .int i => .int i
  | .bool b => .bool b
  | .level l => .str (levelString l)
  | .nil => .nil
  | .group _ => .nil

mutual

/-- `addAttrToMap` of the Victoria-Logs source: skip the zero attribute,
prefix the key with the handler's group, recurse into group values building a
nested map, otherwise store `a.Value.Any()`. -/
def addAttrToMap (m : EMap) (a : Attr) (group : String) : EMap :=
  if a.isZero then m
  else
    let key := visKey group a.key
    match a with
    | .mk _ (.group attrs) => mapInsert m key (.map (addGroupAttrs [] attrs))
    | _ => mapInsert m key (valueToE a.value)
termination_by sizeOf a

/-- The loop `for _, attr := range a.Value.Group() { addAttrToMap(groupMap, attr, "") }`. -/
def addGroupAttrs (m : EMap) : List Attr → EMap
  | [] => m
  | a :: rest => addGroupAttrs (addAttrToMap m a "") rest
termination_by as => sizeOf as

end

/-- `VictoriaLogsHandler`: endpoint, HTTP client, bound attributes, group
prefix, and the outbound queue.  The client and the channel are Go references;
their identities are modelled as numbers, the queue's contents are passed to
`Handle` explicitly. -/
structure VictoriaLogsHandler where
  endpoint : String
  clientId : Nat
  attrs : List Attr
  group : String
  logChanId : Nat

/-- The queue capacity of `make(chan []byte, 2000)`. -/
def chanCap : Nat := 2000

/-- The hard-coded fallback endpoint of `NewVictoriaLogsHandler`. -/
def defaultVictoriaEndpoint : String :=
  "http://oci-aca-001:9428/insert/elasticsearch/_bulk"

/-- The endpoint actually stored by `NewVictoriaLogsHandler`: the argument,
or the hard-coded default when the argument is empty. -/
def newVictoriaEndpoint (endpoint : String) : String :=
  if endpoint = "" then defaultVictoriaEndpoint else endpoint

/-- `NewVictoriaLogsHandler`: stores the (defaulted) endpoint, the shared
client, no bound attributes, no group, and a fresh queue. -/
def newVictoriaLogsHandler (endpoint : String) (clientId freshChanId : Nat) :
    VictoriaLogsHandler :=
  { endpoint := newVictoriaEndpoint endpoint
    clientId := clientId
    attrs := []
    group := ""
    logChanId := freshChanId }

/-- `VictoriaLogsHandler.Enabled`: always true, for every level. -/
def vlEnabled (_h : VictoriaLogsHandler) (_level : Int) : Bool :=
  true

/-- The fixed fields written first by `VictoriaLogsHandler.Handle`:
`_msg`, `_time`, `level`, `host`, `app`.  `host` and `app` are the
process-global `os.Hostname()` and `filepath.Base(os.Args[0])`, passed
explicitly. -/
def vlFixedEntry (host app : String) (r : Record) : EMap :=
  mapInsert (mapInsert (mapInsert (mapInsert (mapInsert []
    "_msg" (.str r.message))
    "_time" (.str r.time.rfc3339nano))
    "level" (.str (getLevelName r.level)))
    "host" (.str host))
    "app" (.str app)

/-- The `if r.PC != 0` block of `Handle`: add the resolved source fields. -/
def vlSourceEntry (e : EMap) (r : Record) : EMap :=
  match r.pc with
  | some f =>
      mapInsert (mapInsert (mapInsert e "source.file" (.str f.file))
        "source.line" (.int f.line)) "source.function" (.str f.function)
  | none => e

/-- The `entry` map built by `VictoriaLogsHandler.Handle`: the fixed fields,
then the source fields when a call site is present, then the bound
attributes, then the record attributes, each through `addAttrToMap` under
the handler's group. -/
def victoriaEntry (h : VictoriaLogsHandler) (host app : String) (r : Record) : EMap :=
  r.attrs.foldl (fun m a => addAttrToMap m a h.group)
    (h.attrs.foldl (fun m a => addAttrToMap m a h.group)
      (vlSourceEntry (vlFixedEntry host app r) r))

/-- `createLineBytes = []byte(`+"{\"create\":{}}"+` + "\n")`. -/
def createLineBytes : String :=
  "\x7b\"create\":\x7b\x7d\x7d" ++ "\n"

/-- The serialized two-line payload `Handle` enqueues: the create line, then
`json.Encoder.Encode(entry)` (which appends a newline). -/
def victoriaPayload (h : VictoriaLogsHandler) (host app : String) (r : Record) : String :=
  createLineBytes ++ encodeEValue (.map (victoriaEntry h host app r)) ++ "\n"

/-- `VictoriaLogsHandler.Handle`: build and serialize the entry, then
`select`-send it on the queue with a `default` branch — enqueue when the
queue has room, silently drop otherwise — and return `nil`.  (For the value
kinds modelled, `json.Encoder.Encode` cannot fail, so the error return of the
encode step never fires.)  The queue contents are threaded explicitly; the
`Option String` component is the Go `error` result, `none` meaning `nil`. -/
def vlHandle (h : VictoriaLogsHandler) (host app : String) (r : Record)
    (q : List String) : List String × Option String :=
  let data := victoriaPayload h host app r
  (if q.length < chanCap then q ++ [data] else q, none)

/-- `VictoriaLogsHandler.WithAttrs`: a new handler with the bound attributes
extended, sharing the endpoint, client and queue. -/
def vlWithAttrs (h : VictoriaLogsHandler) (attrs : List Attr) : VictoriaLogsHandler :=
  { endpoint := h.endpoint
    clientId := h.clientId
    attrs := h.attrs ++ attrs
    group := h.group
    logChanId := h.logChanId }

/-- `VictoriaLogsHandler.WithGroup`: a new handler with the group extended by
a dot-joined segment, sharing the endpoint, client and queue. -/
def vlWithGroup (h : VictoriaLogsHandler) (name : String) : VictoriaLogsHandler :=
  { endpoint := h.endpoint
    clientId := h.clientId
    attrs := h.attrs
    group := if h.group ≠ "" then h.group ++ "." ++ name else name
    logChanId := h.logChanId }

/-- ANSI color constants of `log.go`. -/
def colorReset : String := "\x1b[0m"

/-- `colorGreen`. -/
def colorGreen : String := "\x1b[32m"

/-- `colorYellow`. -/
def colorYellow : String := "\x1b[33m"

/-- `colorPurple`. -/
def colorPurple : String := "\x1b[35m"

/-- `colorCyan`. -/
def colorCyan : String := "\x1b[36m"

/-- `colorGray`. -/
def colorGray : String := "\x1b[90m"

/-- `colorWhite`. -/
def colorWhite : String := "\x1b[97m"

/-- `colorBlue`. -/
def colorBlue : String := "\x1b[34m"

/-- `colorRed`. -/
def colorRed : String := "\x1b[31m"

/-- `colorRedBg`. -/
def colorRedBg : String := "\x1b[41m"

/-- `getLevelColor` of `log.go`. -/
def getLevelColor (level : Int) : String :=
  if level < LevelDebug then colorGray
  else if level < LevelInfo then colorBlue
  else if level < LevelWarn then colorGreen
  else if level < LevelError then colorYellow
  else if level < LevelEmergency then colorRed
  else colorRedBg ++ colorWhite

/-- `getLevelText` of `log.go`: fixed four-character-padded level tags. -/
def getLevelText (level : Int) : String :=
  if level = LevelTrace then "TRAC"
  else if level = LevelDebug then "DBG "
  else if level = LevelInfo then "INFO"
  else if level = LevelWarn then "WARN"
  else if level = LevelError then "ERR "
  else if level = LevelEmergency then "EMER"
  else levelString level

/-- The pad loop `for i := len(levelText); i < 4; i++ buf.WriteByte(' ')`. -/
def levelPad (levelText : String) : String :=
  ⟨List.replicate (4 - levelText.length) ' '⟩

/-- `fmt.Sprintf("%q", s)` on one character: Go quote escaping (modelled for
the escapes the common characters need). -/
def goQuoteChar (c : Char) : String :=
  if c = '"' then "\\\""
  else if c = '\\' then "\\\\"
  else if c = '\n' then "\\n"
  else if c = '\r' then "\\r"
  else if c = '\t' then "\\t"
  else ⟨[c]⟩

/-- Body of `%q` quoting over a character list. -/
def goQuoteList : List Char → String
  | [] => ""
  | c :: cs => goQuoteChar c ++ goQuoteList cs

/-- `fmt.Sprintf("%q", s)`. -/
def goQuote (s : String) : String :=
  "\"" ++ goQuoteList s.data ++ "\""

mutual

/-- `appendAttr` of `log.go`: nothing for the zero attribute; otherwise the
group-prefixed key in purple, `=`, and the value — strings quoted in green,
ints in cyan, bools in yellow, groups as a brace-wrapped space-separated
recursive rendering under the extended prefix (returning before the final
color reset, as the Go code does), and other kinds through `%v`. -/
def appendAttrStr (a : Attr) (group : String) : String :=
  if a.isZero then ""
  else
    let key := visKey group a.key
    let head := colorPurple ++ key ++ colorReset ++ "="
    match a with
    | .mk _ (.str s) => head ++ colorGreen ++ goQuote s ++ colorReset
    | .mk _ (.int i) => head ++ colorCyan ++ intDec i ++ colorReset
    | .mk _ (.bool b) => head ++ colorYellow ++ (if b then "true" else "false") ++ colorReset
    | .mk _ (.group attrs) => head ++ "\x7b" ++ groupLoop attrs key true ++ "\x7d"
    | .mk _ .nil => head ++ "<nil>" ++ colorReset
    | .mk _ (.level l) => head ++ levelString l ++ colorReset
termination_by sizeOf a

/-- The group rendering loop of `appendAttr`: a space before every entry but
the first. -/
def groupLoop (attrs : List Attr) (key : String) (first : Bool) : String :=
  match attrs with
  | [] => ""
  | a :: rest => (if first then "" else " ") ++ appendAttrStr a key ++ groupLoop rest key false
termination_by sizeOf attrs

end

/-- `consoleHandler`: handler options (`AddSource`, optional minimum level),
the output writer (a Go reference, modelled by its identity), bound
attributes and group prefix.  The mutex only serializes concurrent writes
and has no sequential semantics. -/
structure ConsoleHandler where
  addSource : Bool
  optsLevel : Option Int
  outId : Nat
  attrs : List Attr
  group : String

/-- `consoleHandler.Enabled`: `level >= minLevel`, where `minLevel` is
`slog.LevelInfo` unless `opts.Level` is set. -/
def consoleEnabled (h : ConsoleHandler) (level : Int) : Bool :=
  let minLevel :=
    match h.optsLevel with
    | some l => l
    | none => LevelInfo
  decide (minLevel ≤ level)

/-- The `file[:idx]` / `LastIndex` shortening of `consoleHandler.Handle`:
keep the last two path segments. -/
def lastIdxOf (c : Char) : List Char → Option Nat
  | [] => none
  | x :: xs =>
      match lastIdxOf c xs with
      | some i => some (i + 1)
      | none => if x = c then some 0 else none

/-- `strings.LastIndex`-based path shortening of the source file. -/
def shortenFile (file : String) : String :=
  match lastIdxOf '/' file.data with
  | none => file
  | some idx =>
      match lastIdxOf '/' (file.data.take idx) with
      | none => file
      | some idx2 => ⟨file.data.drop (idx2 + 1)⟩

/-- The source suffix of `consoleHandler.Handle`: present only when
`opts.AddSource` is set and the record has a call site. -/
def consoleSourceSuffix (h : ConsoleHandler) (r : Record) : String :=
  if h.addSource then
    match r.pc with
    | some f => " " ++ colorCyan ++ shortenFile f.file ++ ":" ++ intDec f.line ++ colorReset
    | none => ""
  else ""

/-- The line written by `consoleHandler.Handle`, as the sequence of buffer
writes of the Go code: gray clock time, colored padded level, message, the
record attributes, then the bound (prepended) attributes, then the source
suffix, then a newline. -/
def consoleLine (h : ConsoleHandler) (r : Record) : String :=
  let buf := colorGray ++ r.time.clock ++ colorReset ++ " "
  let levelText := getLevelText r.level
  let buf := buf ++ getLevelColor r.level ++ levelText ++ levelPad levelText ++ colorReset ++ " "
  let buf := buf ++ r.message
  let buf := r.attrs.foldl (fun b a => b ++ " " ++ appendAttrStr a h.group) buf
  let buf := h.attrs.foldl (fun b a => b ++ " " ++ appendAttrStr a h.group) buf
  buf ++ consoleSourceSuffix h r ++ "\n"

/-- `consoleHandler.WithAttrs`: new handler, bound attributes extended,
options, writer and group copied. -/
def consoleWithAttrs (h : ConsoleHandler) (attrs : List Attr) : ConsoleHandler :=
  { addSource := h.addSource
    optsLevel := h.optsLevel
    outId := h.outId
    attrs := h.attrs ++ attrs
    group := h.group }

/-- `consoleHandler.WithGroup`: new handler, group extended dot-joined,
options, writer and attributes copied. -/
def consoleWithGroup (h : ConsoleHandler) (name : String) : ConsoleHandler :=
  { addSource := h.addSource
    optsLevel := h.optsLevel
    outId := h.outId
    attrs := h.attrs
    group := if h.group ≠ "" then h.group ++ "." ++ name else name }

/-- `ReplaceAttr` of the file sink (`init`): on the `level` key holding a
`slog.Level`, substitute `TRACE` for the trace level and `EMER` for the
emergency level; otherwise pass the attribute through. -/
def replaceAttr (_groups : List String) (a : Attr) : Attr :=
  if a.key = "level" then
    match a.value with
    | .level l =>
        if l = LevelTrace then .mk "level" (.str "TRACE")
        else if l = LevelEmergency then .mk "level" (.str "EMER")
        else a
    | _ => a
  else a

/-- A member sink of the multi-handler, abstracted to its two methods.  The
external effects of `Handle` (writes, enqueues) act on an explicit state `σ`
threaded through the dispatcher; the `Option String` is the Go `error`
result. -/
structure SinkM (σ : Type) where
  enabled : Int → Bool
  handle : Record → σ → σ × Option String

/-- `multiHandler`: the member sink list. -/
structure MultiHandler (σ : Type) where
  handlers : List (SinkM σ)

/-- The loop of `multiHandler.Handle`: for each member whose `Enabled`
accepts the record's level, run `Handle`, appending any error to `errs`. -/
def multiHandleLoop {σ : Type} (r : Record) :
    List (SinkM σ) → σ → List String → σ × List String
  | [], s, errs => (s, errs)
  | h :: t, s, errs =>
      if h.enabled r.level then
        match h.handle r s with
        | (s', some e) => multiHandleLoop r t s' (errs ++ [e])
        | (s', none) => multiHandleLoop r t s' errs
      else multiHandleLoop r t s errs

/-- `multiHandler.Handle`: run the loop over the members, then return
`errs[0]` when any error was collected, `nil` otherwise. -/
def multiHandle {σ : Type} (m : MultiHandler σ) (r : Record) (s : σ) :
    σ × Option String :=
  let p := multiHandleLoop r m.handlers s []
  (p.1, p.2.head?)

/-- Reference semantics following the claim's words: invoke `handle` of every
given sink in order, unconditionally, threading the state, and collect every
error in order. -/
def runAllSinks {σ : Type} (r : Record) : List (SinkM σ) → σ → σ × List String
  | [], s => (s, [])
  | h :: t, s =>
      let p := h.handle r s
      let rest := runAllSinks r t p.1
      (rest.1, (match p.2 with | some e => [e] | none => []) ++ rest.2)

/-- The handlers assembled by the Victoria-Logs variant of `init`
(`src/unnamed/part_000`), abstracted over the two OS outcomes it branches
on: whether a log file could be opened, and the value of the
`VICTORIA_LOGS_ENDPOINT` environment variable.  The console handler is always
first; the JSON file handler is appended when the file opened; the Victoria
Logs handler built by `NewVictoriaLogsHandler(os.Getenv(...))` is appended
unconditionally. -/
inductive InitHandler where
  | console : InitHandler
  | jsonFile : InitHandler
  | victoria : String → InitHandler
deriving DecidableEq

/-- The member-handler list `init` passes to `multiHandler`. -/
def initHandlers (fileOk : Bool) (env : String) : List InitHandler :=
  [InitHandler.console]
    ++ (if fileOk then [InitHandler.jsonFile] else [])
    ++ [InitHandler.victoria (newVictoriaEndpoint env)]

/-! ### Lemmas about the Go-map model -/

theorem mapGet_insert_self (m : EMap) (k : String) (v : EValue) :
    mapGet (mapInsert m k v) k = some v := by
  induction m with
  | nil => simp [mapInsert, mapGet]
  | cons p rest ih =>
      obtain ⟨k', v'⟩ := p
      by_cases h : k' = k
      · simp [mapInsert, h, mapGet]
      · simp [mapInsert, h, mapGet, ih]

theorem mapGet_insert_ne (m : EMap) (k k' : String) (v : EValue) (hne : k' ≠ k) :
    mapGet (mapInsert m k' v) k = mapGet m k := by
  induction m with
  | nil => simp [mapInsert, mapGet, hne]
  | cons p rest ih =>
      obtain ⟨k₀, v₀⟩ := p
      by_cases h : k₀ = k'
      · subst h
        simp [mapInsert, mapGet, hne]
      · simp [mapInsert, h, mapGet, ih]

theorem mapGet_addAttrToMap_ne (m : EMap) (a : Attr) (g k : String)
    (hne : visKey g a.key ≠ k) :
    mapGet (addAttrToMap m a g) k = mapGet m k := by
  obtain ⟨ak, av⟩ := a
  unfold addAttrToMap
  split
  · rfl
  · cases av <;> simp only [] <;> exact mapGet_insert_ne _ _ _ _ hne

theorem mapGet_foldl_addAttr_ne (as : List Attr) (m : EMap) (g k : String)
    (h : ∀ a ∈ as, visKey g a.key ≠ k) :
    mapGet (as.foldl (fun m a => addAttrToMap m a g) m) k = mapGet m k := by
  induction as generalizing m with
  | nil => rfl
  | cons a rest ih =>
      simp only [List.foldl_cons]
      rw [ih _ fun b hb => h b (List.mem_cons_of_mem a hb),
        mapGet_addAttrToMap_ne _ _ _ _ (h a (List.mem_cons_self a rest))]

/-! ### Newline-freeness of the JSON encoding -/

/-- The string contains no raw newline character. -/
@[reducible] def noNL (s : String) : Prop :=
  '\n' ∉ s.data

theorem noNL_append {a b : String} (ha : noNL a) (hb : noNL b) : noNL (a ++ b) := by
  unfold noNL at *
  rw [String.data_append]
  intro h
  rcases List.mem_append.mp h with h | h
  · exact ha h
  · exact hb h

theorem noNL_hexDigit (n : Nat) : hexDigit n ≠ '\n' := by
  rcases Nat.lt_or_ge n 16 with h | h
  · have hall : ∀ m, m < 16 → hexDigit m ≠ '\n' := by decide
    exact hall n h
  · unfold hexDigit
    rw [List.getD_eq_default]
    · decide
    · simpa using h

theorem noNL_hex2 (n : Nat) : noNL (hex2 n) := by
  unfold noNL hex2
  intro h
  rcases List.mem_cons.mp h with h1 | h'
  · exact noNL_hexDigit _ h1.symm
  · rcases List.mem_cons.mp h' with h2 | h''
    · exact noNL_hexDigit _ h2.symm
    · simp at h''

theorem noNL_escChar (c : Char) : noNL (escChar c) := by
  unfold escChar
  split
  · decide
  · split
    · decide
    · split
      · decide
      · split
        · decide
        · split
          · decide
          · split
            · exact noNL_append (by decide) (noNL_hex2 _)
            · split
              · exact noNL_append (by decide) (noNL_hex2 _)
              · split
                · decide
                · split
                  · decide
                  · rename_i h1 h2 h3 h4 h5 h6 h7 h8 h9
                    unfold noNL
                    intro hmem
                    simp only [String.data, List.mem_singleton] at hmem
                    exact h3 hmem.symm

theorem noNL_escList (cs : List Char) : noNL (escList cs) := by
  induction cs with
  | nil => decide
  | cons c rest ih => exact noNL_append (noNL_escChar c) ih

theorem noNL_escapeString (s : String) : noNL (escapeString s) :=
  noNL_escList s.data

theorem digitChar_ne_nl (k : Nat) (h : k < 10) : Char.ofNat (48 + k) ≠ '\n' := by
  have hall : ∀ m, m < 10 → Char.ofNat (48 + m) ≠ '\n' := by decide
  exact hall k h

theorem noNL_natDecAux (n : Nat) :
    ∀ acc, (∀ c ∈ acc, c ≠ '\n') → ∀ c ∈ natDecAux n acc, c ≠ '\n' := by
  induction n using Nat.strong_induction_on with
  | _ n ih =>
      intro acc hacc c hc
      unfold natDecAux at hc
      split at hc
      · rcases List.mem_cons.mp hc with h | h
        · rename_i hn
          exact h ▸ digitChar_ne_nl n hn
        · exact hacc c h
      · rename_i hn
        refine ih (n / 10) ?_ _ ?_ c hc
        · exact Nat.div_lt_self (by omega) (by norm_num)
        · intro d hd
          rcases List.mem_cons.mp hd with h | h
          · exact h ▸ digitChar_ne_nl (n % 10) (Nat.mod_lt n (by norm_num))
          · exact hacc d h

theorem noNL_natDec (n : Nat) : noNL (natDec n) := by
  unfold noNL natDec
  intro h
  exact noNL_natDecAux n [] (by simp) _ h rfl

theorem noNL_intDec (i : Int) : noNL (intDec i) := by
  unfold intDec
  split
  · exact noNL_append (by decide) (noNL_natDec _)
  · exact noNL_natDec _

mutual

theorem noNL_encodeEValue (v : EValue) : noNL (encodeEValue v) := by
  cases v with
  | str s =>
      rw [encodeEValue]
      exact noNL_append (noNL_append (by decide) (noNL_escapeString s)) (by decide)
  | int i =>
      rw [encodeEValue]
      exact noNL_intDec i
  | bool b =>
      rw [encodeEValue]
      cases b <;> decide
  | nil =>
      rw [encodeEValue]
      decide
  | map m =>
      rw [encodeEValue]
      exact noNL_append (noNL_append (by decide) (noNL_encodeEntries m)) (by decide)
termination_by sizeOf v

theorem noNL_encodeEntries (m : List (String × EValue)) : noNL (encodeEntries m) := by
  match m with
  | [] =>
      rw [encodeEntries]
      decide
  | [(k, v)] =>
      rw [encodeEntries]
      exact noNL_append (noNL_append (noNL_append (by decide) (noNL_escapeString k))
        (by decide)) (noNL_encodeEValue v)
  | (k, v) :: p :: rest =>
      rw [encodeEntries]
      exact noNL_append (noNL_append (noNL_append (noNL_append (noNL_append (by decide)
        (noNL_escapeString k)) (by decide)) (noNL_encodeEValue v)) (by decide))
        (noNL_encodeEntries (p :: rest))
termination_by sizeOf m

end

/-! ### Console-line factorization -/

/-- The rendering of a sequence of attributes as `consoleHandler.Handle`
emits it: a space, then `appendAttr`, for each attribute in order. -/
def attrsSeq (as : List Attr) (g : String) : String :=
  match as with
  | [] => ""
  | a :: rest => " " ++ appendAttrStr a g ++ attrsSeq rest g

/-- The fixed prefix of a console line: clock time, colored padded level,
message. -/
def consoleHeader (h : ConsoleHandler) (r : Record) : String :=
  colorGray ++ r.time.clock ++ colorReset ++ " " ++ getLevelColor r.level ++
    getLevelText r.level ++ levelPad (getLevelText r.level) ++ colorReset ++ " " ++
    r.message

theorem foldl_attrs_eq (as : List Attr) (g : String) (b : String) :
    as.foldl (fun b a => b ++ " " ++ appendAttrStr a g) b = b ++ attrsSeq as g := by
  induction as generalizing b with
  | nil => simp [attrsSeq]
  | cons a rest ih =>
      simp only [List.foldl_cons, attrsSeq, ih]
      simp [String.append_assoc]

/-! ### Dispatcher loop -/

theorem multiHandleLoop_eq {σ : Type} (r : Record) (hs : List (SinkM σ)) :
    ∀ (s : σ) (errs : List String),
      multiHandleLoop r hs s errs =
        ((runAllSinks r (hs.filter fun h => h.enabled r.level) s).1,
          errs ++ (runAllSinks r (hs.filter fun h => h.enabled r.level) s).2) := by
  induction hs with
  | nil =>
      intro s errs
      simp [multiHandleLoop, runAllSinks]
  | cons h t ih =>
      intro s errs
      by_cases he : h.enabled r.level = true
      · cases hh : h.handle r s with
        | mk s' e =>
            cases e with
            | none => simp [multiHandleLoop, he, hh, List.filter_cons, runAllSinks, ih]
            | some err =>
                simp [multiHandleLoop, he, hh, List.filter_cons, runAllSinks, ih]
      · simp [multiHandleLoop, he, List.filter_cons, ih]

/-! ### Claims -/

/-- C1: `RemoteSink`'s `handle` performs a non-blocking enqueue of the
serialized payload onto the fixed-capacity 2000-entry buffer; when the buffer
is full the record is dropped silently and `handle` still returns success
(`nil`); backpressure is never reported as an error. -/
theorem C1_vl_handle_nonblocking_drop (h : VictoriaLogsHandler) (host app : String)
    (r : Record) (q : List String) :
    (vlHandle h host app r q).2 = none ∧
    (q.length < chanCap →
      (vlHandle h host app r q).1 = q ++ [victoriaPayload h host app r]) ∧
    (chanCap ≤ q.length → (vlHandle h host app r q).1 = q) := by
  unfold vlHandle
  refine ⟨rfl, ?_, ?_⟩
  · intro hlt
    simp [hlt]
  · intro hge
    simp [Nat.not_lt.mpr hge]

/-- Witness for C1 at a concrete handler and record, on an empty queue and on
a full queue of 2000 entries. -/
theorem C1_vl_handle_nonblocking_drop_witness :
    (vlHandle ⟨"ep", 0, [], "", 0⟩ "h" "a" ⟨⟨"t", "c"⟩, 0, "m", none, []⟩ []).2 = none ∧
    (vlHandle ⟨"ep", 0, [], "", 0⟩ "h" "a" ⟨⟨"t", "c"⟩, 0, "m", none, []⟩ []).1 =
      [] ++ [victoriaPayload ⟨"ep", 0, [], "", 0⟩ "h" "a" ⟨⟨"t", "c"⟩, 0, "m", none, []⟩] ∧
    (vlHandle ⟨"ep", 0, [], "", 0⟩ "h" "a" ⟨⟨"t", "c"⟩, 0, "m", none, []⟩
        (List.replicate 2000 "x")).1 = List.replicate 2000 "x" :=
  ⟨(C1_vl_handle_nonblocking_drop ⟨"ep", 0, [], "", 0⟩ "h" "a"
      ⟨⟨"t", "c"⟩, 0, "m", none, []⟩ []).1,
    (C1_vl_handle_nonblocking_drop ⟨"ep", 0, [], "", 0⟩ "h" "a"
      ⟨⟨"t", "c"⟩, 0, "m", none, []⟩ []).2.1 (by decide),
    (C1_vl_handle_nonblocking_drop ⟨"ep", 0, [], "", 0⟩ "h" "a"
      ⟨⟨"t", "c"⟩, 0, "m", none, []⟩ (List.replicate 2000 "x")).2.2
      (by rw [List.length_replicate]; exact Nat.le_refl 2000)⟩

/-- C3: the dispatcher's `handle` invokes `handle` on exactly the member
sinks whose `enabled` accepts the record's level, in member order, applying
every such sink's effect even when an earlier sink errs, and returns the
first collected error (`none` when no enabled member errs). -/
theorem C3_multi_fanout_first_error {σ : Type} (m : MultiHandler σ) (r : Record) (s : σ) :
    multiHandle m r s =
      ((runAllSinks r (m.handlers.filter fun h => h.enabled r.level) s).1,
        (runAllSinks r (m.handlers.filter fun h => h.enabled r.level) s).2.head?) := by
  unfold multiHandle
  rw [multiHandleLoop_eq]
  simp

/-- C4: with `VICTORIA_LOGS_ENDPOINT` empty, `init` still constructs the
Victoria Logs handler — `NewVictoriaLogsHandler` substitutes the hard-coded
default endpoint — and appends it to the dispatcher's member list, with or
without a log file. -/
theorem C4_victoria_constructed_on_empty_env :
    newVictoriaEndpoint "" = defaultVictoriaEndpoint ∧
    InitHandler.victoria defaultVictoriaEndpoint ∈ initHandlers true "" ∧
    InitHandler.victoria defaultVictoriaEndpoint ∈ initHandlers false "" ∧
    (newVictoriaLogsHandler "" 0 1).endpoint = defaultVictoriaEndpoint :=
  ⟨rfl, by decide, by decide, rfl⟩

/-- C5: a console sink with a configured minimum level is enabled exactly on
the levels at or above it; in particular it rejects every lower level and
accepts the minimum itself. -/
theorem C5_console_enabled_iff_min_level (h : ConsoleHandler) (m level l1 : Int)
    (hm : h.optsLevel = some m) :
    (consoleEnabled h level = true ↔ m ≤ level) ∧
    (l1 < m → consoleEnabled h l1 = false) ∧
    consoleEnabled h m = true := by
  unfold consoleEnabled
  rw [hm]
  refine ⟨by simp, ?_, by simp⟩
  intro hl
  simp [Int.not_le.mpr hl]

/-- Witness for C5 at minimum level 4: level 3 is rejected, levels 4 and 7
accepted. -/
theorem C5_console_enabled_iff_min_level_witness :
    consoleEnabled ⟨true, some 4, 0, [], ""⟩ 3 = false ∧
    consoleEnabled ⟨true, some 4, 0, [], ""⟩ 4 = true ∧
    (consoleEnabled ⟨true, some 4, 0, [], ""⟩ 7 = true ↔ (4 : Int) ≤ 7) :=
  ⟨(C5_console_enabled_iff_min_level ⟨true, some 4, 0, [], ""⟩ 4 7 3 rfl).2.1 (by decide),
    (C5_console_enabled_iff_min_level ⟨true, some 4, 0, [], ""⟩ 4 7 3 rfl).2.2,
    (C5_console_enabled_iff_min_level ⟨true, some 4, 0, [], ""⟩ 4 7 3 rfl).1⟩

/-- C9: `withAttrs`/`withGroup` on the remote and console sinks are pure
constructors: the derived sink carries the updated binding state, every other
field is copied from the receiver, and for the remote sink the derived
handler shares the parent's queue and client. -/
theorem C9_with_attrs_group_pure_share_queue (hv : VictoriaLogsHandler)
    (hc : ConsoleHandler) (as : List Attr) (name : String) :
    (vlWithAttrs hv as).logChanId = hv.logChanId ∧
    (vlWithAttrs hv as).clientId = hv.clientId ∧
    (vlWithAttrs hv as).endpoint = hv.endpoint ∧
    (vlWithAttrs hv as).attrs = hv.attrs ++ as ∧
    (vlWithAttrs hv as).group = hv.group ∧
    (vlWithGroup hv name).logChanId = hv.logChanId ∧
    (vlWithGroup hv name).clientId = hv.clientId ∧
    (vlWithGroup hv name).endpoint = hv.endpoint ∧
    (vlWithGroup hv name).attrs = hv.attrs ∧
    (vlWithGroup hv name).group =
      (if hv.group ≠ "" then hv.group ++ "." ++ name else name) ∧
    (consoleWithAttrs hc as).attrs = hc.attrs ++ as ∧
    (consoleWithAttrs hc as).group = hc.group ∧
    (consoleWithAttrs hc as).optsLevel = hc.optsLevel ∧
    (consoleWithAttrs hc as).addSource = hc.addSource ∧
    (consoleWithAttrs hc as).outId = hc.outId ∧
    (consoleWithGroup hc name).attrs = hc.attrs ∧
    (consoleWithGroup hc name).group =
      (if hc.group ≠ "" then hc.group ++ "." ++ name else name) ∧
    (consoleWithGroup hc name).outId = hc.outId :=
  ⟨rfl, rfl, rfl, rfl, rfl, rfl, rfl, rfl, rfl, rfl, rfl, rfl, rfl, rfl, rfl,
    rfl, rfl, rfl⟩

/-- C10: the remote sink's `enabled` is true for every level — it has no
minimum-level gate — and `handle` serializes and enqueues the record
(queue permitting) whatever its severity. -/
theorem C10_vl_enabled_always (h : VictoriaLogsHandler) (level : Int)
    (host app : String) (r : Record) (q : List String) :
    vlEnabled h level = true ∧
    (q.length < chanCap →
      (vlHandle h host app r q).1 = q ++ [victoriaPayload h host app r]) := by
  refine ⟨rfl, ?_⟩
  intro hlt
  unfold vlHandle
  simp [hlt]

/-- Witness for C10 at the extreme levels and an empty queue. -/
theorem C10_vl_enabled_always_witness :
    vlEnabled ⟨"ep", 0, [], "", 0⟩ (-8) = true ∧
    vlEnabled ⟨"ep", 0, [], "", 0⟩ 12 = true ∧
    (vlHandle ⟨"ep", 0, [], "", 0⟩ "h" "a" ⟨⟨"t", "c"⟩, -8, "m", none, []⟩ []).1 =
      [] ++ [victoriaPayload ⟨"ep", 0, [], "", 0⟩ "h" "a" ⟨⟨"t", "c"⟩, -8, "m", none, []⟩] :=
  ⟨(C10_vl_enabled_always ⟨"ep", 0, [], "", 0⟩ (-8) "h" "a"
      ⟨⟨"t", "c"⟩, -8, "m", none, []⟩ []).1,
    (C10_vl_enabled_always ⟨"ep", 0, [], "", 0⟩ 12 "h" "a"
      ⟨⟨"t", "c"⟩, -8, "m", none, []⟩ []).1,
    (C10_vl_enabled_always ⟨"ep", 0, [], "", 0⟩ (-8) "h" "a"
      ⟨⟨"t", "c"⟩, -8, "m", none, []⟩ []).2 (by decide)⟩

/-- C7 counterexample: the file sink's `ReplaceAttr` renders level 12 as
`EMER`, not `EMERGENCY` as the claim states. -/
theorem C7_file_level_emer_cex :
    replaceAttr [] (.mk "level" (.level 12)) = .mk "level" (.str "EMER") ∧
    replaceAttr [] (.mk "level" (.level 12)) ≠ .mk "level" (.str "EMERGENCY") := by
  refine ⟨rfl, ?_⟩
  intro hc
  rw [show replaceAttr [] (.mk "level" (.level 12)) = .mk "level" (.str "EMER") from rfl] at hc
  injection hc with h1 h2
  injection h2 with h3
  exact absurd h3 (by decide)

/-- C7 amended: the remote sink's level names are `TRACE` for −8 and
`EMERGENCY` for 12; the file sink's `ReplaceAttr` substitutes `TRACE` for −8
but `EMER` (not `EMERGENCY`) for 12. -/
theorem C7_level_names_remote_vs_file :
    getLevelName LevelTrace = "TRACE" ∧
    getLevelName LevelEmergency = "EMERGENCY" ∧
    replaceAttr [] (.mk "level" (.level LevelTrace)) = .mk "level" (.str "TRACE") ∧
    replaceAttr [] (.mk "level" (.level LevelEmergency)) = .mk "level" (.str "EMER") :=
  ⟨rfl, rfl, rfl, rfl⟩

/-- C8 counterexample: for a console sink holding one bound attribute and a
record carrying one attribute, the line is not header-then-bound-then-record
— the claimed order of emission is violated. -/
theorem C8_prepended_first_cex :
    consoleLine ⟨false, none, 0, [.mk "p" (.str "1")], ""⟩
        ⟨⟨"t", "12:00:00.000"⟩, 0, "msg", none, [.mk "q" (.str "2")]⟩ ≠
      consoleHeader ⟨false, none, 0, [.mk "p" (.str "1")], ""⟩
          ⟨⟨"t", "12:00:00.000"⟩, 0, "msg", none, [.mk "q" (.str "2")]⟩ ++
        attrsSeq [.mk "p" (.str "1")] "" ++ attrsSeq [.mk "q" (.str "2")] "" ++
        consoleSourceSuffix ⟨false, none, 0, [.mk "p" (.str "1")], ""⟩
          ⟨⟨"t", "12:00:00.000"⟩, 0, "msg", none, [.mk "q" (.str "2")]⟩ ++ "\n" := by
  simp [consoleLine, consoleHeader, attrsSeq, consoleSourceSuffix, appendAttrStr,
    visKey, goQuote, goQuoteList, goQuoteChar, getLevelText, getLevelColor, levelPad,
    LevelTrace, LevelDebug, LevelInfo, LevelWarn, LevelError, LevelEmergency,
    colorGray, colorReset, colorGreen, colorPurple, colorCyan, String.append_assoc,
    Attr.isZero, Attr.key]
  decide

/-- C8 amended: every console line factors as header, then the record's own
attributes, then the bound (prepended) attributes, then the source suffix —
the bound attributes are emitted after the record attributes, not before. -/
theorem C8_record_attrs_before_prepended (h : ConsoleHandler) (r : Record) :
    consoleLine h r =
      consoleHeader h r ++ attrsSeq r.attrs h.group ++ attrsSeq h.attrs h.group ++
        consoleSourceSuffix h r ++ "\n" := by
  simp only [consoleLine, consoleHeader]
  rw [foldl_attrs_eq, foldl_attrs_eq]

theorem addAttr_str_nogroup (m : EMap) (k s : String) :
    addAttrToMap m (.mk k (.str s)) "" = mapInsert m k (.str s) := by
  simp [addAttrToMap, Attr.isZero, visKey, valueToE, Attr.key, Attr.value]

/-- C6 counterexample: a record with two attributes under the same key
yields a remote-sink document with a single binding for that key, holding
only the later value — the earlier attribute is not visible. -/
theorem C6_duplicate_key_overwritten_cex :
    mapGet (victoriaEntry ⟨"ep", 0, [], "", 0⟩ "h" "a"
        ⟨⟨"t", "c"⟩, 0, "m", none, [.mk "k" (.str "a"), .mk "k" (.str "b")]⟩) "k" =
      some (.str "b") ∧
    ((victoriaEntry ⟨"ep", 0, [], "", 0⟩ "h" "a"
        ⟨⟨"t", "c"⟩, 0, "m", none, [.mk "k" (.str "a"), .mk "k" (.str "b")]⟩).map
        Prod.fst).count "k" = 1 := by
  constructor <;>
    simp [victoriaEntry, vlSourceEntry, vlFixedEntry, addAttrToMap, Attr.isZero,
      visKey, valueToE, mapInsert, mapGet, Attr.key, Attr.value, List.count_cons]

/-- C6 amended: insertion order is preserved and all duplicates are visible
in the console sink's rendering, but in the remote sink's map-built document
a later duplicate key overwrites the earlier one — only the last value
survives. -/
theorem C6_duplicate_keys_last_wins (h : VictoriaLogsHandler) (host app : String)
    (r : Record) (k s1 s2 : String)
    (hg : h.group = "") (hb : h.attrs = [])
    (ha : r.attrs = [.mk k (.str s1), .mk k (.str s2)]) (hne : s1 ≠ s2) :
    mapGet (victoriaEntry h host app r) k = some (.str s2) ∧
    mapGet (victoriaEntry h host app r) k ≠ some (.str s1) ∧
    attrsSeq r.attrs h.group =
      (" " ++ appendAttrStr (.mk k (.str s1)) "") ++
        ((" " ++ appendAttrStr (.mk k (.str s2)) "") ++ "") := by
  have hmain : mapGet (victoriaEntry h host app r) k = some (.str s2) := by
    unfold victoriaEntry
    rw [hg, hb, ha]
    simp only [List.foldl_nil, List.foldl_cons]
    rw [addAttr_str_nogroup, addAttr_str_nogroup, mapGet_insert_self]
  refine ⟨hmain, ?_, ?_⟩
  · rw [hmain]
    intro hc
    injection hc with h1
    injection h1 with h2
    exact hne h2.symm
  · rw [ha, hg]
    rfl

/-- Witness for C6 (amended) at key `k` with values `a` then `b`. -/
theorem C6_duplicate_keys_last_wins_witness :
    mapGet (victoriaEntry ⟨"ep", 0, [], "", 0⟩ "hh" "aa"
        ⟨⟨"t", "c"⟩, 0, "m", none, [.mk "k" (.str "a"), .mk "k" (.str "b")]⟩) "k" =
      some (.str "b") ∧
    attrsSeq [Attr.mk "k" (Value.str "a"), .mk "k" (.str "b")] "" =
      (" " ++ appendAttrStr (.mk "k" (.str "a")) "") ++
        ((" " ++ appendAttrStr (.mk "k" (.str "b")) "") ++ "") :=
  ⟨(C6_duplicate_keys_last_wins ⟨"ep", 0, [], "", 0⟩ "hh" "aa"
      ⟨⟨"t", "c"⟩, 0, "m", none, [.mk "k" (.str "a"), .mk "k" (.str "b")]⟩
      "k" "a" "b" rfl rfl rfl (by decide)).1,
    (C6_duplicate_keys_last_wins ⟨"ep", 0, [], "", 0⟩ "hh" "aa"
      ⟨⟨"t", "c"⟩, 0, "m", none, [.mk "k" (.str "a"), .mk "k" (.str "b")]⟩
      "k" "a" "b" rfl rfl rfl (by decide)).2.2⟩

/-- The fixed field names of the remote-sink document. -/
def vlFixedKeys : List String := ["_msg", "_time", "level", "host", "app"]

theorem mapGet_vlSource_of_fixed (e : EMap) (r : Record) (k : String)
    (hk : k ∈ vlFixedKeys) : mapGet (vlSourceEntry e r) k = mapGet e k := by
  unfold vlSourceEntry
  cases r.pc with
  | none => rfl
  | some f =>
      fin_cases hk <;>
        rw [mapGet_insert_ne _ _ _ _ (by decide), mapGet_insert_ne _ _ _ _ (by decide),
          mapGet_insert_ne _ _ _ _ (by decide)]

/-- C2 counterexample: a record attribute keyed `_msg` overwrites the fixed
`_msg` field, so the enqueued document's `_msg` is not the record's message. -/
theorem C2_msg_overwritten_cex :
    (Record.mk ⟨"t", "c"⟩ 0 "orig" none [.mk "_msg" (.str "boom")]).message = "orig" ∧
    mapGet (victoriaEntry ⟨"ep", 0, [], "", 0⟩ "h" "a"
        (Record.mk ⟨"t", "c"⟩ 0 "orig" none [.mk "_msg" (.str "boom")])) "_msg" =
      some (.str "boom") ∧
    mapGet (victoriaEntry ⟨"ep", 0, [], "", 0⟩ "h" "a"
        (Record.mk ⟨"t", "c"⟩ 0 "orig" none [.mk "_msg" (.str "boom")])) "_msg" ≠
      some (.str "orig") := by
  have h1 : mapGet (victoriaEntry ⟨"ep", 0, [], "", 0⟩ "h" "a"
      (Record.mk ⟨"t", "c"⟩ 0 "orig" none [.mk "_msg" (.str "boom")])) "_msg" =
      some (.str "boom") := by
    simp [victoriaEntry, vlSourceEntry, vlFixedEntry, addAttrToMap, Attr.isZero,
      visKey, valueToE, mapInsert, mapGet, Attr.key, Attr.value]
  refine ⟨rfl, h1, ?_⟩
  rw [h1]
  intro hc
  injection hc with h2
  injection h2 with h3
  exact absurd h3 (by decide)

/-- C2 amended: provided no bound or record attribute's group-prefixed key
collides with a fixed field name, the enqueued payload is exactly two
newline-terminated lines — the create line, then the newline-free JSON
document — and the document's `_msg`, `_time`, `level`, `host`, `app` fields
hold the record's message, its RFC3339Nano timestamp, the level name
(`EMERGENCY` for 12, `TRACE` for −8), the hostname and the app name.  (An
attribute keyed like a fixed field overwrites it — the collision-free proviso
is forced by the counterexample.) -/
theorem C2_vl_payload_two_lines_fields (h : VictoriaLogsHandler) (host app : String)
    (r : Record)
    (hkeys : ∀ a ∈ h.attrs ++ r.attrs, visKey h.group a.key ∉ vlFixedKeys) :
    victoriaPayload h host app r =
      "\x7b\"create\":\x7b\x7d\x7d" ++ "\n" ++
        encodeEValue (.map (victoriaEntry h host app r)) ++ "\n" ∧
    noNL (encodeEValue (.map (victoriaEntry h host app r))) ∧
    mapGet (victoriaEntry h host app r) "_msg" = some (.str r.message) ∧
    mapGet (victoriaEntry h host app r) "_time" = some (.str r.time.rfc3339nano) ∧
    mapGet (victoriaEntry h host app r) "level" = some (.str (getLevelName r.level)) ∧
    mapGet (victoriaEntry h host app r) "host" = some (.str host) ∧
    mapGet (victoriaEntry h host app r) "app" = some (.str app) ∧
    getLevelName LevelEmergency = "EMERGENCY" ∧
    getLevelName LevelTrace = "TRACE" := by
  have hfix : ∀ k ∈ vlFixedKeys,
      mapGet (victoriaEntry h host app r) k = mapGet (vlFixedEntry host app r) k := by
    intro k hk
    unfold victoriaEntry
    rw [mapGet_foldl_addAttr_ne r.attrs _ _ _ fun a ha hEq =>
        hkeys a (List.mem_append_right _ ha) (hEq ▸ hk),
      mapGet_foldl_addAttr_ne h.attrs _ _ _ fun a ha hEq =>
        hkeys a (List.mem_append_left _ ha) (hEq ▸ hk),
      mapGet_vlSource_of_fixed _ _ _ hk]
  exact ⟨rfl, noNL_encodeEValue _,
    (hfix "_msg" (by decide)).trans rfl,
    (hfix "_time" (by decide)).trans rfl,
    (hfix "level" (by decide)).trans rfl,
    (hfix "host" (by decide)).trans rfl,
    (hfix "app" (by decide)).trans rfl,
    rfl, rfl⟩

/-- Witness for C2 (amended) at a concrete handler and record with one
non-colliding attribute. -/
theorem C2_vl_payload_two_lines_fields_witness :
    victoriaPayload ⟨"ep", 0, [], "", 0⟩ "hh" "aa"
        ⟨⟨"2025-01-01T00:00:00Z", "c"⟩, 12, "m", none, [.mk "k" (.str "v")]⟩ =
      "\x7b\"create\":\x7b\x7d\x7d" ++ "\n" ++
        encodeEValue (.map (victoriaEntry ⟨"ep", 0, [], "", 0⟩ "hh" "aa"
          ⟨⟨"2025-01-01T00:00:00Z", "c"⟩, 12, "m", none, [.mk "k" (.str "v")]⟩)) ++ "\n" ∧
    mapGet (victoriaEntry ⟨"ep", 0, [], "", 0⟩ "hh" "aa"
        ⟨⟨"2025-01-01T00:00:00Z", "c"⟩, 12, "m", none, [.mk "k" (.str "v")]⟩) "_msg" =
      some (.str "m") ∧
    mapGet (victoriaEntry ⟨"ep", 0, [], "", 0⟩ "hh" "aa"
        ⟨⟨"2025-01-01T00:00:00Z", "c"⟩, 12, "m", none, [.mk "k" (.str "v")]⟩) "level" =
      some (.str "EMERGENCY") :=
  ⟨(C2_vl_payload_two_lines_fields ⟨"ep", 0, [], "", 0⟩ "hh" "aa"
      ⟨⟨"2025-01-01T00:00:00Z", "c"⟩, 12, "m", none, [.mk "k" (.str "v")]⟩
      (by decide)).1,
    (C2_vl_payload_two_lines_fields ⟨"ep", 0, [], "", 0⟩ "hh" "aa"
      ⟨⟨"2025-01-01T00:00:00Z", "c"⟩, 12, "m", none, [.mk "k" (.str "v")]⟩
      (by decide)).2.2.1,
    (C2_vl_payload_two_lines_fields ⟨"ep", 0, [], "", 0⟩ "hh" "aa"
      ⟨⟨"2025-01-01T00:00:00Z", "c"⟩, 12, "m", none, [.mk "k" (.str "v")]⟩
      (by decide)).2.2.2.2.1⟩

end XtdLog
